import Mathlib

/-!
Shallow embedding of the Danzmann Gameplay Messages subsystem
(`Source/DanzmannGameplayMessages/Public/DanzmannGameplayMessagesSubsystem.h` and
`Source/DanzmannGameplayMessages/Public/DanzmannGameplayMessagesListener.h`).

Modelling conventions:
* `FGameplayTag` (a hierarchical dot-separated tag such as `A.B.C`) is modelled as the
  list of its segment identifiers `[a, b, c]`; segments are opaque `Nat` ids.
  `RequestDirectParent` strips the last segment and the empty list is the invalid tag,
  exactly mirroring the tag hierarchy operations the router uses.
* `UScriptStruct` runtime type descriptors are modelled by their inheritance chain from
  the root (a list of opaque `Nat` ids, root first); `UScriptStruct::IsChildOf` is then
  the prefix relation on chains.
* `TWeakObjectPtr<const UScriptStruct>` is modelled by the stored descriptor
  (`Option`, `none` for a null assignment) plus a boolean recording whether the target
  is still alive at the time the broadcast runs.
* Callbacks (`TFunction<void(FGameplayTag, const UScriptStruct*, const void*)>`) are
  opaque: each listener stores a callback identifier, and a broadcast is parametrised
  by an environment giving the effect of each callback on the router state, which
  lets callbacks re-enter register/unregister during a broadcast.
* `TMap<FGameplayTag, FDanzmannChannelListenerList>` is modelled as an association
  list with unique keys; `int32` handle ids are modelled as `Nat` (the claims live in
  the non-overflowing range of the counter).
* Invocations and diagnostics are recorded as an event trace: a broadcast returns the
  new registry plus the list of deliveries, type-mismatch errors and stale-listener
  purges, in the order they happen.
-/

/-- Hierarchical channel key (`FGameplayTag`): the list of segment ids of `A.B.C`. -/
abbrev FGameplayTag := List Nat

/-- `FGameplayTag::IsValid()`: the empty tag is the invalid tag. -/
def tagIsValid (t : FGameplayTag) : Bool :=
  !t.isEmpty

/-- `FGameplayTag::RequestDirectParent()`: strip the last segment. -/
def requestDirectParent (t : FGameplayTag) : FGameplayTag :=
  t.dropLast

/-- Runtime struct type descriptor (`const UScriptStruct*` target): inheritance chain
from the root type, root first. -/
abbrev UScriptStructDesc := List Nat

/-- `UScriptStruct::IsChildOf(s)`: `t` is `s` itself or derived from it, i.e. the
chain of `s` is a prefix of the chain of `t`. -/
def isChildOf (t s : UScriptStructDesc) : Bool :=
  s.isPrefixOf t

/-- `EDanzmannGameplayMessagesMatchCriteria` from `DanzmannGameplayMessagesListener.h`. -/
inductive EDanzmannGameplayMessagesMatchCriteria : Type
  | ExactMatch
  | PartialMatch
deriving DecidableEq, Repr

/-- `FDanzmannGameplayMessagesListenerData` from `DanzmannGameplayMessagesListener.h`. -/
structure FDanzmannGameplayMessagesListenerData where
  HandleId : Nat := 0
  /-- opaque id standing for the stored `TFunction` callback -/
  Callback : Nat := 0
  /-- target of the `TWeakObjectPtr<const UScriptStruct>` (`none` for null) -/
  GameplayMessageStructType : Option UScriptStructDesc := none
  /-- whether the weak pointer target is still alive (models `IsValid()` on it) -/
  structTypeAlive : Bool := true
  bHasValidType : Bool := false
  MatchCriteria : EDanzmannGameplayMessagesMatchCriteria := .ExactMatch
deriving DecidableEq, Repr

/-- `TWeakObjectPtr::IsValid()` on the stored struct type: non-null and alive. -/
def weakIsValid (l : FDanzmannGameplayMessagesListenerData) : Bool :=
  l.GameplayMessageStructType.isSome && l.structTypeAlive

/-- `FDanzmannChannelListenerList` from `DanzmannGameplayMessagesSubsystem.h`. -/
structure FDanzmannChannelListenerList where
  Listeners : List FDanzmannGameplayMessagesListenerData := []
  AvailableHandleId : Nat := 0
deriving DecidableEq, Repr

/-- `FDanzmannGameplayMessagesListenerHandle` from `DanzmannGameplayMessagesListener.h`. -/
structure FDanzmannGameplayMessagesListenerHandle where
  Channel : FGameplayTag := []
  Id : Nat := 0
deriving DecidableEq, Repr

/-- `FDanzmannGameplayMessagesListenerHandle::IsValid()`: `Id != 0`. -/
def FDanzmannGameplayMessagesListenerHandle.IsValid
    (h : FDanzmannGameplayMessagesListenerHandle) : Bool :=
  h.Id != 0

/-- The router registry `TMap<FGameplayTag, FDanzmannChannelListenerList> ListenerMap`,
modelled as an association list with unique keys. -/
abbrev ListenerMap := List (FGameplayTag × FDanzmannChannelListenerList)

/-- `TMap::Find`. -/
def mapFind : ListenerMap → FGameplayTag → Option FDanzmannChannelListenerList
  | [], _ => none
  | p :: rest, t => if p.1 = t then some p.2 else mapFind rest t

/-- Replace the value stored under an existing key (in-place mutation through the
pointer returned by `TMap::Find`/`TMap::FindOrAdd`). -/
def mapSet : ListenerMap → FGameplayTag → FDanzmannChannelListenerList → ListenerMap
  | [], _, _ => []
  | p :: rest, t, ll => (if p.1 = t then (t, ll) else p) :: mapSet rest t ll

/-- `TMap::Remove`. -/
def mapRemove : ListenerMap → FGameplayTag → ListenerMap
  | [], _ => []
  | p :: rest, t => if p.1 = t then mapRemove rest t else p :: mapRemove rest t

/-- `TMap::FindOrAdd` followed by storing the updated list back: update in place when
the key exists, otherwise add the key with the given value. -/
def mapFindOrAddSet (m : ListenerMap) (t : FGameplayTag)
    (ll : FDanzmannChannelListenerList) : ListenerMap :=
  if (mapFind m t).isSome then mapSet m t ll else m ++ [(t, ll)]

/-- `UDanzmannGameplayMessagesSubsystem::RegisterListener_Internal`: find-or-add the
channel's list, append a defaulted entry, fill it in with
`HandleId = ++ListenersList.AvailableHandleId`, and return the handle. -/
def registerListener_Internal (m : ListenerMap) (Channel : FGameplayTag) (Callback : Nat)
    (GameplayMessageStructType : Option UScriptStructDesc)
    (ChannelMatchCriteria : EDanzmannGameplayMessagesMatchCriteria) :
    ListenerMap × FDanzmannGameplayMessagesListenerHandle :=
  let ListenersList := (mapFind m Channel).getD {}
  let newHandleId := ListenersList.AvailableHandleId + 1
  let Entry : FDanzmannGameplayMessagesListenerData :=
    { HandleId := newHandleId
      Callback := Callback
      GameplayMessageStructType := GameplayMessageStructType
      structTypeAlive := true
      bHasValidType := GameplayMessageStructType.isSome
      MatchCriteria := ChannelMatchCriteria }
  let ListenersList' : FDanzmannChannelListenerList :=
    { Listeners := ListenersList.Listeners ++ [Entry], AvailableHandleId := newHandleId }
  (mapFindOrAddSet m Channel ListenersList', ⟨Channel, newHandleId⟩)

/-- `TArray::IndexOfByPredicate`: index of the first element satisfying the predicate. -/
def indexOfByPredicate {α : Type} (p : α → Bool) : List α → Option Nat
  | [] => none
  | a :: rest => if p a then some 0 else (indexOfByPredicate p rest).map (· + 1)

/-- `TArray::RemoveAtSwap i`: move the last element into slot `i` and pop the last
slot (removal that does not preserve order). -/
def removeAtSwap {α : Type} (l : List α) (i : Nat) : List α :=
  match l.getLast? with
  | none => l
  | some x => (l.set i x).dropLast

/-- `UDanzmannGameplayMessagesSubsystem::UnregisterListener_Internal`: look the channel
up, remove the first entry whose `HandleId` matches (by `RemoveAtSwap`), and remove the
channel from the map when its list is empty. -/
def unregisterListener_Internal (m : ListenerMap) (Channel : FGameplayTag)
    (HandleId : Nat) : ListenerMap :=
  match mapFind m Channel with
  | none => m
  | some ListenersList =>
    match indexOfByPredicate (fun other => other.HandleId == HandleId)
        ListenersList.Listeners with
    | none =>
      if ListenersList.Listeners.length = 0 then mapRemove m Channel else m
    | some MatchIndex =>
      let Listeners' := removeAtSwap ListenersList.Listeners MatchIndex
      if Listeners'.length = 0 then mapRemove m Channel
      else mapSet m Channel { ListenersList with Listeners := Listeners' }

/-- `UDanzmannGameplayMessagesSubsystem::UnregisterListener`: valid handles go to the
internal unregister; an invalid handle only logs a warning (returned boolean). -/
def unregisterListener (m : ListenerMap)
    (Handle : FDanzmannGameplayMessagesListenerHandle) : ListenerMap × Bool :=
  if Handle.IsValid then (unregisterListener_Internal m Handle.Channel Handle.Id, false)
  else (m, true)

/-- Observable steps of `BroadcastGameplayMessage_Internal`: a callback invocation
with its arguments, a logged type-mismatch error with the data the log line carries,
or a logged stale-listener purge. -/
inductive BroadcastEvent : Type
  | delivered (Channel : FGameplayTag) (structType : UScriptStructDesc) (payload : Nat)
      (level : FGameplayTag) (entry : FDanzmannGameplayMessagesListenerData)
  | typeMismatch (Channel : FGameplayTag) (broadcastType : UScriptStructDesc)
      (level : FGameplayTag) (expectedType : Option UScriptStructDesc)
  | staleRemoved (Channel : FGameplayTag) (level : FGameplayTag)
      (entry : FDanzmannGameplayMessagesListenerData)
deriving DecidableEq, Repr

/-- The ancestor level an event was produced at (the loop variable `Tag`). -/
def eventLevel : BroadcastEvent → FGameplayTag
  | .delivered _ _ _ lvl _ => lvl
  | .typeMismatch _ _ lvl _ => lvl
  | .staleRemoved _ lvl _ => lvl

/-- Body of the inner `for (Listener : Listeners)` loop of
`BroadcastGameplayMessage_Internal`, iterating the snapshot taken at one ancestor
level.  `env` gives the effect of each callback on the registry (callbacks may
re-enter register/unregister); events are collected in invocation order.  Note the
stale branch mirrors the source exactly: it unregisters on `Channel`, the broadcast
channel, not on `lvl`, the level the listener is stored at. -/
def broadcastLevel (env : Nat → ListenerMap → ListenerMap) (Channel : FGameplayTag)
    (ty : UScriptStructDesc) (payload : Nat) (bOnInitialTag : Bool) (lvl : FGameplayTag) :
    List FDanzmannGameplayMessagesListenerData → ListenerMap →
    ListenerMap × List BroadcastEvent
  | [], m => (m, [])
  | Listener :: rest, m =>
    if bOnInitialTag ∨ Listener.MatchCriteria = .PartialMatch then
      if Listener.bHasValidType ∧ ¬ weakIsValid Listener then
        let m' := unregisterListener_Internal m Channel Listener.HandleId
        let next := broadcastLevel env Channel ty payload bOnInitialTag lvl rest m'
        (next.1, .staleRemoved Channel lvl Listener :: next.2)
      else if ¬ Listener.bHasValidType ∨
          isChildOf ty (Listener.GameplayMessageStructType.getD []) then
        let m' := env Listener.Callback m
        let next := broadcastLevel env Channel ty payload bOnInitialTag lvl rest m'
        (next.1, .delivered Channel ty payload lvl Listener :: next.2)
      else
        let next := broadcastLevel env Channel ty payload bOnInitialTag lvl rest m
        (next.1, .typeMismatch Channel ty lvl Listener.GameplayMessageStructType :: next.2)
    else broadcastLevel env Channel ty payload bOnInitialTag lvl rest m

/-- The outer `for (FGameplayTag Tag = Channel; Tag.IsValid(); Tag = Tag.RequestDirectParent())`
loop over a list of levels: look the level up, copy its listener list (the snapshot),
run the inner loop on the copy, and continue with `bOnInitialTag = false`. -/
def broadcastWalk (env : Nat → ListenerMap → ListenerMap) (Channel : FGameplayTag)
    (ty : UScriptStructDesc) (payload : Nat) :
    List FGameplayTag → Bool → ListenerMap → ListenerMap × List BroadcastEvent
  | [], _, m => (m, [])
  | lvl :: rest, bOnInitialTag, m =>
    let step :=
      match mapFind m lvl with
      | some ListenersList =>
        broadcastLevel env Channel ty payload bOnInitialTag lvl ListenersList.Listeners m
      | none => (m, [])
    let next := broadcastWalk env Channel ty payload rest false step.1
    (next.1, step.2 ++ next.2)

/-- The ancestor walk of the broadcast loop, with explicit fuel so that the
definition is structurally recursive; each iteration strips one segment, so
`t.length` fuel always suffices. -/
def tagChainFuel : Nat → FGameplayTag → List FGameplayTag
  | 0, _ => []
  | fuel + 1, t => if t.isEmpty then [] else t :: tagChainFuel fuel (requestDirectParent t)

/-- The ancestor chain the broadcast loop walks: the channel itself, then direct
parents up to (and including) the root; empty for the invalid tag. -/
def tagChain (t : FGameplayTag) : List FGameplayTag :=
  tagChainFuel t.length t

/-- `UDanzmannGameplayMessagesSubsystem::BroadcastGameplayMessage_Internal`. -/
def broadcastGameplayMessage_Internal (env : Nat → ListenerMap → ListenerMap)
    (Channel : FGameplayTag) (GameplayMessageStructType : UScriptStructDesc)
    (GameplayMessagePayload : Nat) (m : ListenerMap) :
    ListenerMap × List BroadcastEvent :=
  broadcastWalk env Channel GameplayMessageStructType GameplayMessagePayload
    (tagChain Channel) true m

/-- The event (if any) the inner loop produces for one snapshot entry; the choice
depends only on the entry and the broadcast arguments, never on the evolving
registry. -/
def levelEvent (Channel : FGameplayTag) (ty : UScriptStructDesc) (payload : Nat)
    (bOnInitialTag : Bool) (lvl : FGameplayTag)
    (Listener : FDanzmannGameplayMessagesListenerData) : Option BroadcastEvent :=
  if bOnInitialTag ∨ Listener.MatchCriteria = .PartialMatch then
    if Listener.bHasValidType ∧ ¬ weakIsValid Listener then
      some (.staleRemoved Channel lvl Listener)
    else if ¬ Listener.bHasValidType ∨
        isChildOf ty (Listener.GameplayMessageStructType.getD []) then
      some (.delivered Channel ty payload lvl Listener)
    else
      some (.typeMismatch Channel ty lvl Listener.GameplayMessageStructType)
  else none

/-- A register or unregister call, used to model what a listener callback may do to
the router from inside a broadcast. -/
inductive RouterOp : Type
  | reg (Channel : FGameplayTag) (Callback : Nat) (ty : Option UScriptStructDesc)
      (crit : EDanzmannGameplayMessagesMatchCriteria)
  | unreg (Handle : FDanzmannGameplayMessagesListenerHandle)

/-- Run one router operation. -/
def applyOp (m : ListenerMap) : RouterOp → ListenerMap
  | .reg c cb ty crit => (registerListener_Internal m c cb ty crit).1
  | .unreg h => (unregisterListener m h).1

/-- Run a sequence of router operations. -/
def applyOps (m : ListenerMap) : List RouterOp → ListenerMap
  | [] => m
  | op :: rest => applyOps (applyOp m op) rest

/-- Callback environment in which each callback performs a fixed sequence of
register/unregister calls on the router. -/
def envOfOps (f : Nat → List RouterOp) : Nat → ListenerMap → ListenerMap :=
  fun cb m => applyOps m (f cb)

/-- Well-formedness of one channel's list: non-empty, handle ids pairwise distinct,
and every id at most the channel's `AvailableHandleId` counter. -/
def channelWF (ll : FDanzmannChannelListenerList) : Prop :=
  ll.Listeners ≠ [] ∧ (ll.Listeners.map (·.HandleId)).Nodup ∧
    ∀ l ∈ ll.Listeners, l.HandleId ≤ ll.AvailableHandleId

/-- Well-formedness of the registry: keys are unique and every stored channel list is
well-formed (in particular non-empty: a key is present iff its list is non-empty). -/
def mapWF (m : ListenerMap) : Prop :=
  (m.map (·.1)).Nodup ∧ ∀ p ∈ m, channelWF p.2

/-- `AvailableHandleId` counter currently associated with a channel (0 when the
channel is absent, matching the default of a freshly added list). -/
def availableIdAt (m : ListenerMap) (c : FGameplayTag) : Nat :=
  ((mapFind m c).getD {}).AvailableHandleId

instance (ll : FDanzmannChannelListenerList) : Decidable (channelWF ll) := by
  unfold channelWF; infer_instance

instance (m : ListenerMap) : Decidable (mapWF m) := by
  unfold mapWF; infer_instance

/-! ### Association-list (registry map) lemmas -/

theorem mapFind_mapSet_self (m : ListenerMap) (t : FGameplayTag)
    (ll : FDanzmannChannelListenerList) :
    mapFind (mapSet m t ll) t = if (mapFind m t).isSome then some ll else none := by
  induction m with
  | nil => simp [mapFind, mapSet]
  | cons p rest ih =>
    by_cases h : p.1 = t <;> simp [mapFind, mapSet, h, ih]

theorem mapFind_mapSet_ne (m : ListenerMap) {t t' : FGameplayTag}
    (ll : FDanzmannChannelListenerList) (h : t' ≠ t) :
    mapFind (mapSet m t ll) t' = mapFind m t' := by
  induction m with
  | nil => simp [mapSet]
  | cons p rest ih =>
    by_cases hp : p.1 = t
    · simp [mapFind, mapSet, hp, Ne.symm h, ih]
    · simp only [mapSet, if_neg hp, mapFind, ih]

theorem mapFind_mapRemove_self (m : ListenerMap) (t : FGameplayTag) :
    mapFind (mapRemove m t) t = none := by
  induction m with
  | nil => simp [mapFind, mapRemove]
  | cons p rest ih =>
    by_cases h : p.1 = t <;> simp [mapFind, mapRemove, h, ih]

theorem mapFind_mapRemove_ne (m : ListenerMap) {t t' : FGameplayTag} (h : t' ≠ t) :
    mapFind (mapRemove m t) t' = mapFind m t' := by
  induction m with
  | nil => simp [mapRemove]
  | cons p rest ih =>
    by_cases hp : p.1 = t
    · have h1 : p.1 ≠ t' := by rw [hp]; exact Ne.symm h
      simp [mapFind, mapRemove, hp, h1, ih, Ne.symm h]
    · simp only [mapRemove, if_neg hp, mapFind, ih]

theorem mapFind_append (m m' : ListenerMap) (t : FGameplayTag) :
    mapFind (m ++ m') t =
      match mapFind m t with
      | some v => some v
      | none => mapFind m' t := by
  induction m with
  | nil => simp [mapFind]
  | cons p rest ih =>
    by_cases h : p.1 = t <;> simp [mapFind, h, ih]

theorem mapFind_mapFindOrAddSet_self (m : ListenerMap) (t : FGameplayTag)
    (ll : FDanzmannChannelListenerList) :
    mapFind (mapFindOrAddSet m t ll) t = some ll := by
  unfold mapFindOrAddSet
  by_cases h : (mapFind m t).isSome
  · simp [mapFind_mapSet_self, h]
  · have hnone : mapFind m t = none := by
      cases hm : mapFind m t
      · rfl
      · rw [hm] at h; simp at h
    simp [h, mapFind_append, hnone, mapFind]

theorem mapFind_mapFindOrAddSet_ne (m : ListenerMap) {t t' : FGameplayTag}
    (ll : FDanzmannChannelListenerList) (h : t' ≠ t) :
    mapFind (mapFindOrAddSet m t ll) t' = mapFind m t' := by
  unfold mapFindOrAddSet
  by_cases hs : (mapFind m t).isSome
  · simp [hs, mapFind_mapSet_ne m ll h]
  · rw [if_neg hs, mapFind_append]
    cases hm : mapFind m t' with
    | none => simp [mapFind, Ne.symm h]
    | some v => simp

theorem mapSet_keys (m : ListenerMap) (t : FGameplayTag)
    (ll : FDanzmannChannelListenerList) :
    (mapSet m t ll).map (·.1) = m.map (·.1) := by
  induction m with
  | nil => rfl
  | cons p rest ih =>
    by_cases h : p.1 = t <;> simp [mapSet, h, ih]

theorem mapRemove_keys_sublist (m : ListenerMap) (t : FGameplayTag) :
    ((mapRemove m t).map (·.1)).Sublist (m.map (·.1)) := by
  induction m with
  | nil => simp [mapRemove]
  | cons p rest ih =>
    by_cases h : p.1 = t
    · simp only [mapRemove, if_pos h, List.map_cons]
      exact ih.trans (List.sublist_cons_self _ _)
    · simpa [mapRemove, h] using ih.cons₂ p.1

theorem mem_mapSet {m : ListenerMap} {t : FGameplayTag}
    {ll : FDanzmannChannelListenerList} {p : FGameplayTag × FDanzmannChannelListenerList}
    (hp : p ∈ mapSet m t ll) : p = (t, ll) ∨ p ∈ m := by
  induction m with
  | nil => simp [mapSet] at hp
  | cons q rest ih =>
    by_cases h : q.1 = t
    · simp only [mapSet, if_pos h, List.mem_cons] at hp
      rcases hp with hp | hp
      · exact Or.inl hp
      · rcases ih hp with hp | hp
        · exact Or.inl hp
        · exact Or.inr (List.mem_cons_of_mem _ hp)
    · simp only [mapSet, if_neg h, List.mem_cons] at hp
      rcases hp with hp | hp
      · exact Or.inr (by simp [hp])
      · rcases ih hp with hp | hp
        · exact Or.inl hp
        · exact Or.inr (List.mem_cons_of_mem _ hp)

theorem mem_mapRemove {m : ListenerMap} {t : FGameplayTag}
    {p : FGameplayTag × FDanzmannChannelListenerList}
    (hp : p ∈ mapRemove m t) : p ∈ m := by
  induction m with
  | nil => simp [mapRemove] at hp
  | cons q rest ih =>
    by_cases h : q.1 = t
    · simp only [mapRemove, if_pos h] at hp
      exact List.mem_cons_of_mem _ (ih hp)
    · simp only [mapRemove, if_neg h, List.mem_cons] at hp
      rcases hp with hp | hp
      · simp [hp]
      · exact List.mem_cons_of_mem _ (ih hp)

theorem mapFind_eq_none_iff (m : ListenerMap) (t : FGameplayTag) :
    mapFind m t = none ↔ t ∉ m.map (·.1) := by
  induction m with
  | nil => simp [mapFind]
  | cons p rest ih =>
    by_cases h : p.1 = t
    · simp [mapFind, h]
    · simp only [mapFind, if_neg h, ih, List.map_cons, List.mem_cons]
      constructor
      · intro hni hcon
        rcases hcon with hc | hc
        · exact h hc.symm
        · exact hni hc
      · intro hni hmem
        exact hni (Or.inr hmem)

theorem mapFind_mem {m : ListenerMap} {t : FGameplayTag}
    {ll : FDanzmannChannelListenerList} (h : mapFind m t = some ll) : (t, ll) ∈ m := by
  induction m with
  | nil => simp [mapFind] at h
  | cons p rest ih =>
    by_cases hp : p.1 = t
    · simp only [mapFind, if_pos hp, Option.some_inj] at h
      subst hp
      subst h
      simp
    · simp only [mapFind, if_neg hp] at h
      exact List.mem_cons_of_mem _ (ih h)

/-! ### `indexOfByPredicate` and `removeAtSwap` lemmas -/

theorem indexOfByPredicate_eq_some {α : Type} {p : α → Bool} :
    ∀ {l : List α} {i : Nat}, indexOfByPredicate p l = some i →
      ∃ h : i < l.length, p (l.get ⟨i, h⟩) = true := by
  intro l
  induction l with
  | nil => intro i h; simp [indexOfByPredicate] at h
  | cons a rest ih =>
    intro i h
    by_cases ha : p a
    · simp only [indexOfByPredicate, if_pos ha, Option.some_inj] at h
      subst h
      exact ⟨by simp, ha⟩
    · simp only [indexOfByPredicate, if_neg ha, Option.map_eq_some'] at h
      obtain ⟨j, hj, rfl⟩ := h
      obtain ⟨hlt, hp⟩ := ih hj
      exact ⟨by simpa using hlt, hp⟩

theorem indexOfByPredicate_eq_none {α : Type} {p : α → Bool} {l : List α}
    (h : ∀ a ∈ l, p a = false) : indexOfByPredicate p l = none := by
  induction l with
  | nil => rfl
  | cons a rest ih =>
    have ha : p a = false := h a (by simp)
    simp only [indexOfByPredicate, ha, Bool.false_eq_true, if_false]
    rw [ih fun a ha => h a (List.mem_cons_of_mem _ ha)]
    rfl

theorem removeAtSwap_perm {α : Type} :
    ∀ (l : List α) (i : Nat), i < l.length → (removeAtSwap l i).Perm (l.eraseIdx i)
  | [], i, h => absurd h (by simp)
  | [a], 0, _ => by simp [removeAtSwap, List.eraseIdx]
  | [a], i + 1, h => absurd h (by simp)
  | a :: b :: t, 0, _ => by
    obtain ⟨x, hx⟩ : ∃ x, (b :: t).getLast? = some x :=
      Option.isSome_iff_exists.mp (List.getLast?_isSome.mpr (by simp))
    have hne : (b :: t) ≠ [] := by simp
    have hlast : (b :: t).dropLast ++ [(b :: t).getLast hne] = b :: t :=
      List.dropLast_append_getLast hne
    have hxval : (b :: t).getLast hne = x := by
      have heq := List.getLast?_eq_getLast (b :: t) hne
      rw [heq] at hx
      exact Option.some_inj.mp hx
    rw [hxval] at hlast
    simp only [removeAtSwap, List.getLast?_cons_cons, hx, List.set_cons_zero,
      List.dropLast_cons₂, List.eraseIdx_cons_zero]
    have hperm : (x :: (b :: t).dropLast).Perm ((b :: t).dropLast ++ [x]) :=
      (List.perm_append_singleton _ _).symm
    rw [hlast] at hperm
    exact hperm
  | a :: b :: t, i + 1, h => by
    obtain ⟨x, hx⟩ : ∃ x, (b :: t).getLast? = some x :=
      Option.isSome_iff_exists.mp (List.getLast?_isSome.mpr (by simp))
    have hi : i < (b :: t).length := by simpa using h
    have ih := removeAtSwap_perm (b :: t) i hi
    obtain ⟨c, L, hcl⟩ : ∃ c L, (b :: t).set i x = c :: L := by
      cases i <;> exact ⟨_, _, rfl⟩
    simp only [removeAtSwap, hx] at ih
    simp only [removeAtSwap, List.getLast?_cons_cons, hx, List.set_cons_succ, hcl,
      List.dropLast_cons₂, List.eraseIdx_cons_succ]
    rw [← hcl] at *
    exact ih.cons a

theorem removeAtSwap_subset {α : Type} {l : List α} {i : Nat} (h : i < l.length) :
    ∀ x ∈ removeAtSwap l i, x ∈ l := by
  intro x hx
  have := (removeAtSwap_perm l i h).mem_iff.mp hx
  exact (List.eraseIdx_sublist l i).subset this

theorem removeAtSwap_map_nodup {α β : Type} {f : α → β} {l : List α} {i : Nat}
    (h : i < l.length) (hn : (l.map f).Nodup) : ((removeAtSwap l i).map f).Nodup := by
  have hperm : ((removeAtSwap l i).map f).Perm ((l.eraseIdx i).map f) :=
    (removeAtSwap_perm l i h).map f
  have hsub : ((l.eraseIdx i).map f).Sublist (l.map f) := (List.eraseIdx_sublist l i).map f
  exact hperm.nodup_iff.mpr (hsub.nodup hn)

theorem not_mem_map_eraseIdx {α β : Type} {f : α → β} :
    ∀ (l : List α) (i : Nat) (h : i < l.length), (l.map f).Nodup →
      f (l.get ⟨i, h⟩) ∉ (l.eraseIdx i).map f
  | [], i, h, _ => absurd h (by simp)
  | a :: t, 0, _, hn => by
    simp only [List.map_cons, List.nodup_cons] at hn
    simpa [List.eraseIdx_cons_zero] using hn.1
  | a :: t, i + 1, h, hn => by
    simp only [List.map_cons, List.nodup_cons] at hn
    have hi : i < t.length := by simpa using h
    have ihn := not_mem_map_eraseIdx t i hi hn.2
    have hmem : f (t.get ⟨i, hi⟩) ∈ t.map f :=
      List.mem_map_of_mem f (t.get_mem _ _)
    have hne : ¬ f (t.get ⟨i, hi⟩) = f a := fun hEq => hn.1 (hEq ▸ hmem)
    simp only [List.get_cons_succ, List.eraseIdx_cons_succ, List.map_cons,
      List.mem_cons, not_or]
    exact ⟨by simpa using hne, by simpa using ihn⟩

theorem removeAtSwap_not_mem_map {α β : Type} {f : α → β} {l : List α} {i : Nat}
    (h : i < l.length) (hn : (l.map f).Nodup) :
    f (l.get ⟨i, h⟩) ∉ (removeAtSwap l i).map f := by
  intro hmem
  have hperm : ((removeAtSwap l i).map f).Perm ((l.eraseIdx i).map f) :=
    (removeAtSwap_perm l i h).map f
  exact not_mem_map_eraseIdx l i h hn (hperm.mem_iff.mp hmem)

/-! ### `tagChain` lemmas -/

theorem tagChainFuel_succ_of_ne_nil (fuel : Nat) (t : FGameplayTag) (h : t ≠ []) :
    tagChainFuel (fuel + 1) t = t :: tagChainFuel fuel (requestDirectParent t) := by
  cases t with
  | nil => exact absurd rfl h
  | cons s rest => rfl

theorem tagChainFuel_eq_tagChain :
    ∀ (fuel : Nat) (t : FGameplayTag), t.length ≤ fuel → tagChainFuel fuel t = tagChain t := by
  intro fuel
  induction fuel with
  | zero =>
    intro t ht
    have h0 : t = [] := List.length_eq_zero.mp (Nat.le_zero.mp ht)
    subst h0
    rfl
  | succ fuel ih =>
    intro t ht
    cases t with
    | nil => rfl
    | cons s rest =>
      have hd : (requestDirectParent (s :: rest)).length ≤ fuel := by
        simp only [requestDirectParent, List.length_dropLast, List.length_cons]
        simp only [List.length_cons] at ht
        omega
      have htc : tagChain (s :: rest)
          = (s :: rest) :: tagChainFuel rest.length (requestDirectParent (s :: rest)) := rfl
      rw [tagChainFuel_succ_of_ne_nil fuel (s :: rest) (by simp), ih _ hd, htc]
      have hlen : (requestDirectParent (s :: rest)).length = rest.length := by
        simp [requestDirectParent, List.length_dropLast]
      congr 1
      unfold tagChain
      rw [hlen]

theorem tagChain_cons (t : FGameplayTag) (h : t ≠ []) :
    tagChain t = t :: tagChain (requestDirectParent t) := by
  cases t with
  | nil => exact absurd rfl h
  | cons s rest =>
    have h1 : tagChain (s :: rest)
        = (s :: rest) :: tagChainFuel rest.length (requestDirectParent (s :: rest)) := rfl
    have hlen : (requestDirectParent (s :: rest)).length = rest.length := by
      simp [requestDirectParent, List.length_dropLast]
    rw [h1]
    congr 1
    unfold tagChain
    rw [hlen]

theorem mem_tagChainFuel_isPrefix :
    ∀ (fuel : Nat) (t u : FGameplayTag), u ∈ tagChainFuel fuel t → u <+: t := by
  intro fuel
  induction fuel with
  | zero => intro t u h; simp [tagChainFuel] at h
  | succ fuel ih =>
    intro t u h
    cases t with
    | nil => simp [tagChainFuel] at h
    | cons s rest =>
      rw [tagChainFuel_succ_of_ne_nil fuel (s :: rest) (by simp)] at h
      rcases List.mem_cons.mp h with rfl | h
      · exact List.prefix_refl _
      · exact (ih _ _ h).trans (List.dropLast_prefix _)

theorem mem_tagChain_isPrefix {t u : FGameplayTag} (h : u ∈ tagChain t) : u <+: t :=
  mem_tagChainFuel_isPrefix t.length t u h

theorem tagChainFuel_nodup : ∀ (fuel : Nat) (t : FGameplayTag), (tagChainFuel fuel t).Nodup := by
  intro fuel
  induction fuel with
  | zero => intro t; simp [tagChainFuel]
  | succ fuel ih =>
    intro t
    cases t with
    | nil => simp [tagChainFuel]
    | cons s rest =>
      rw [tagChainFuel_succ_of_ne_nil fuel (s :: rest) (by simp), List.nodup_cons]
      refine ⟨fun hmem => ?_, ih _⟩
      have h1 : (s :: rest).length ≤ (requestDirectParent (s :: rest)).length :=
        (mem_tagChainFuel_isPrefix _ _ _ hmem).length_le
      have h2 : (requestDirectParent (s :: rest)).length = rest.length := by
        simp [requestDirectParent, List.length_dropLast]
      simp only [List.length_cons] at h1
      omega

theorem tagChain_nodup (t : FGameplayTag) : (tagChain t).Nodup :=
  tagChainFuel_nodup t.length t

/-! ### Characterisation of the inner broadcast loop -/

theorem broadcastLevel_snd (env : Nat → ListenerMap → ListenerMap) (Channel : FGameplayTag)
    (ty : UScriptStructDesc) (payload : Nat) (bOnInitialTag : Bool) (lvl : FGameplayTag) :
    ∀ (snap : List FDanzmannGameplayMessagesListenerData) (m : ListenerMap),
      (broadcastLevel env Channel ty payload bOnInitialTag lvl snap m).2 =
        snap.filterMap (levelEvent Channel ty payload bOnInitialTag lvl) := by
  intro snap
  induction snap with
  | nil => intro m; rfl
  | cons Listener rest ih =>
    intro m
    simp only [broadcastLevel, levelEvent, List.filterMap_cons]
    split_ifs with h1 h2 h3
    · simp [ih]
    · simp [ih]
    · simp [ih]
    · simp [ih]

theorem levelEvent_some_eventLevel {Channel : FGameplayTag} {ty : UScriptStructDesc}
    {payload : Nat} {ini : Bool} {lvl : FGameplayTag}
    {l : FDanzmannGameplayMessagesListenerData} {e : BroadcastEvent}
    (h : levelEvent Channel ty payload ini lvl l = some e) : eventLevel e = lvl := by
  unfold levelEvent at h
  split_ifs at h with h1 h2 h3
  all_goals (injection h with h4; rw [← h4]; rfl)

theorem levelEvent_delivered_inv {Channel C0 : FGameplayTag} {ty ty0 : UScriptStructDesc}
    {payload pl0 : Nat} {ini : Bool} {lvl lvl0 : FGameplayTag}
    {l entry : FDanzmannGameplayMessagesListenerData}
    (h : levelEvent Channel ty payload ini lvl l =
      some (.delivered C0 ty0 pl0 lvl0 entry)) :
    C0 = Channel ∧ ty0 = ty ∧ pl0 = payload ∧ lvl0 = lvl ∧ entry = l ∧
      (ini = true ∨ l.MatchCriteria = .PartialMatch) ∧
      ¬ (l.bHasValidType = true ∧ ¬ weakIsValid l = true) ∧
      (¬ l.bHasValidType = true ∨ isChildOf ty (l.GameplayMessageStructType.getD []) = true) := by
  unfold levelEvent at h
  split_ifs at h with h1 h2 h3
  · simp at h
  · injection h with h4
    injection h4 with e1 e2 e3 e4 e5
    exact ⟨e1.symm, e2.symm, e3.symm, e4.symm, e5.symm, h1, h2, h3⟩
  · simp at h

theorem levelEvent_mismatch_inv {Channel C0 : FGameplayTag} {ty ty0 : UScriptStructDesc}
    {payload : Nat} {ini : Bool} {lvl lvl0 : FGameplayTag}
    {l : FDanzmannGameplayMessagesListenerData} {exp : Option UScriptStructDesc}
    (h : levelEvent Channel ty payload ini lvl l = some (.typeMismatch C0 ty0 lvl0 exp)) :
    C0 = Channel ∧ ty0 = ty ∧ lvl0 = lvl ∧ exp = l.GameplayMessageStructType ∧
      (ini = true ∨ l.MatchCriteria = .PartialMatch) ∧
      l.bHasValidType = true ∧ weakIsValid l = true ∧
      isChildOf ty (l.GameplayMessageStructType.getD []) = false := by
  unfold levelEvent at h
  split_ifs at h with h1 h2 h3
  · simp at h
  · simp at h
  · have hvalid : l.bHasValidType = true := by
      by_contra hv
      exact h3 (Or.inl hv)
    have hweak : weakIsValid l = true := by
      by_contra hw
      exact h2 ⟨hvalid, hw⟩
    have hchild : isChildOf ty (l.GameplayMessageStructType.getD []) = false := by
      cases hc : isChildOf ty (l.GameplayMessageStructType.getD [])
      · rfl
      · exact absurd (Or.inr hc) h3
    injection h with h4
    injection h4 with e1 e2 e3 e4
    exact ⟨e1.symm, e2.symm, e3.symm, e4.symm, h1, hvalid, hweak, hchild⟩

/-! ### Characterisation of the ancestor walk -/

theorem broadcastWalk_events_mem_level (env : Nat → ListenerMap → ListenerMap)
    (Channel : FGameplayTag) (ty : UScriptStructDesc) (payload : Nat) :
    ∀ (levels : List FGameplayTag) (ini : Bool) (m : ListenerMap) (e : BroadcastEvent),
      e ∈ (broadcastWalk env Channel ty payload levels ini m).2 → eventLevel e ∈ levels := by
  intro levels
  induction levels with
  | nil => intro ini m e h; simp [broadcastWalk] at h
  | cons lvl rest ih =>
    intro ini m e h
    cases hf : mapFind m lvl with
    | none =>
      simp only [broadcastWalk, hf, List.nil_append] at h
      exact List.mem_cons_of_mem _ (ih false _ e h)
    | some ll =>
      simp only [broadcastWalk, hf] at h
      rcases List.mem_append.mp h with h | h
      · rw [broadcastLevel_snd] at h
        obtain ⟨l, _, hl⟩ := List.mem_filterMap.mp h
        rw [levelEvent_some_eventLevel hl]
        exact List.mem_cons_self _ _
      · exact List.mem_cons_of_mem _ (ih false _ e h)

theorem broadcastWalk_sound (env : Nat → ListenerMap → ListenerMap)
    (Channel : FGameplayTag) (ty : UScriptStructDesc) (payload : Nat) :
    ∀ (levels : List FGameplayTag) (ini : Bool) (m : ListenerMap) (e : BroadcastEvent),
      e ∈ (broadcastWalk env Channel ty payload levels ini m).2 →
      ∃ lvl l ini2, lvl ∈ levels ∧ levelEvent Channel ty payload ini2 lvl l = some e := by
  intro levels
  induction levels with
  | nil => intro ini m e h; simp [broadcastWalk] at h
  | cons lvl rest ih =>
    intro ini m e h
    cases hf : mapFind m lvl with
    | none =>
      simp only [broadcastWalk, hf, List.nil_append] at h
      obtain ⟨lvl2, l, ini2, hmem, hl⟩ := ih false _ e h
      exact ⟨lvl2, l, ini2, List.mem_cons_of_mem _ hmem, hl⟩
    | some ll =>
      simp only [broadcastWalk, hf] at h
      rcases List.mem_append.mp h with h | h
      · rw [broadcastLevel_snd] at h
        obtain ⟨l, _, hl⟩ := List.mem_filterMap.mp h
        exact ⟨lvl, l, ini, List.mem_cons_self _ _, hl⟩
      · obtain ⟨lvl2, l, ini2, hmem, hl⟩ := ih false _ e h
        exact ⟨lvl2, l, ini2, List.mem_cons_of_mem _ hmem, hl⟩

theorem broadcastWalk_delivered_guard (env : Nat → ListenerMap → ListenerMap)
    (Channel : FGameplayTag) (ty : UScriptStructDesc) (payload : Nat) :
    ∀ (levels : List FGameplayTag) (ini : Bool) (m : ListenerMap) (C0 : FGameplayTag)
      (ty0 : UScriptStructDesc) (pl0 : Nat) (lvl : FGameplayTag)
      (entry : FDanzmannGameplayMessagesListenerData),
      BroadcastEvent.delivered C0 ty0 pl0 lvl entry ∈
        (broadcastWalk env Channel ty payload levels ini m).2 →
      entry.MatchCriteria = .PartialMatch ∨ (ini = true ∧ levels.head? = some lvl) := by
  intro levels
  induction levels with
  | nil => intro ini m C0 ty0 pl0 lvl entry h; simp [broadcastWalk] at h
  | cons lvl1 rest ih =>
    intro ini m C0 ty0 pl0 lvl entry h
    cases hf : mapFind m lvl1 with
    | none =>
      simp only [broadcastWalk, hf, List.nil_append] at h
      rcases ih false _ C0 ty0 pl0 lvl entry h with h | h
      · exact Or.inl h
      · simp at h
    | some ll =>
      simp only [broadcastWalk, hf] at h
      rcases List.mem_append.mp h with h | h
      · rw [broadcastLevel_snd] at h
        obtain ⟨l, _, hl⟩ := List.mem_filterMap.mp h
        obtain ⟨_, _, _, hlvl, hentry, hguard, _, _⟩ := levelEvent_delivered_inv hl
        rcases hguard with hguard | hguard
        · exact Or.inr ⟨hguard, by rw [hlvl]; rfl⟩
        · exact Or.inl (by rw [hentry]; exact hguard)
      · rcases ih false _ C0 ty0 pl0 lvl entry h with h | h
        · exact Or.inl h
        · simp at h

theorem broadcastWalk_silent (env : Nat → ListenerMap → ListenerMap)
    (Channel : FGameplayTag) (ty : UScriptStructDesc) (payload : Nat) :
    ∀ (levels : List FGameplayTag) (ini : Bool) (m : ListenerMap),
      (∀ t ∈ levels, mapFind m t = none) →
      broadcastWalk env Channel ty payload levels ini m = (m, []) := by
  intro levels
  induction levels with
  | nil => intro ini m _; rfl
  | cons lvl rest ih =>
    intro ini m h
    have hf : mapFind m lvl = none := h lvl (by simp)
    have hr := ih false m fun t ht => h t (List.mem_cons_of_mem _ ht)
    simp [broadcastWalk, hf, hr]

theorem broadcastWalk_decomp (env : Nat → ListenerMap → ListenerMap)
    (Channel : FGameplayTag) (ty : UScriptStructDesc) (payload : Nat) :
    ∀ (levels : List FGameplayTag) (ini : Bool) (m : ListenerMap),
      ∃ pairs : List (FGameplayTag × List BroadcastEvent),
        pairs.map Prod.fst = levels ∧
        (broadcastWalk env Channel ty payload levels ini m).2 =
          (pairs.map Prod.snd).flatten ∧
        ∀ p ∈ pairs, ∀ e ∈ p.2, eventLevel e = p.1 := by
  intro levels
  induction levels with
  | nil => intro ini m; exact ⟨[], rfl, rfl, by simp⟩
  | cons lvl rest ih =>
    intro ini m
    cases hf : mapFind m lvl with
    | none =>
      obtain ⟨pairs, hfst, hsnd, hlev⟩ := ih false m
      refine ⟨(lvl, []) :: pairs, by simp [hfst], ?_, ?_⟩
      · simp only [broadcastWalk, hf, List.nil_append, List.map_cons, List.flatten_cons]
        simpa using hsnd
      · intro p hp e he
        rcases List.mem_cons.mp hp with rfl | hp
        · simp at he
        · exact hlev p hp e he
    | some ll =>
      obtain ⟨pairs, hfst, hsnd, hlev⟩ :=
        ih false (broadcastLevel env Channel ty payload ini lvl ll.Listeners m).1
      refine ⟨(lvl, (broadcastLevel env Channel ty payload ini lvl ll.Listeners m).2)
          :: pairs, by simp [hfst], ?_, ?_⟩
      · simp only [broadcastWalk, hf, List.map_cons, List.flatten_cons]
        simpa using hsnd
      · intro p hp e he
        rcases List.mem_cons.mp hp with rfl | hp
        · simp only at he
          rw [broadcastLevel_snd] at he
          obtain ⟨l, _, hl⟩ := List.mem_filterMap.mp he
          exact levelEvent_some_eventLevel hl
        · exact hlev p hp e he

/-! ### Preservation of registry well-formedness -/

theorem mapWF_mapRemove {m : ListenerMap} (h : mapWF m) (t : FGameplayTag) :
    mapWF (mapRemove m t) :=
  ⟨(mapRemove_keys_sublist m t).nodup h.1, fun p hp => h.2 p (mem_mapRemove hp)⟩

theorem mapWF_mapFindOrAddSet {m : ListenerMap} (h : mapWF m) {c : FGameplayTag}
    {ll : FDanzmannChannelListenerList} (hll : channelWF ll) :
    mapWF (mapFindOrAddSet m c ll) := by
  unfold mapFindOrAddSet
  by_cases hs : (mapFind m c).isSome
  · rw [if_pos hs]
    refine ⟨by rw [mapSet_keys]; exact h.1, ?_⟩
    intro p hp
    rcases mem_mapSet hp with rfl | hp
    · exact hll
    · exact h.2 p hp
  · rw [if_neg hs]
    have hnone : mapFind m c = none := by
      cases hm : mapFind m c
      · rfl
      · rw [hm] at hs; simp at hs
    have hnk : c ∉ m.map (·.1) := (mapFind_eq_none_iff m c).mp hnone
    constructor
    · rw [List.map_append]
      rw [List.nodup_append]
      refine ⟨h.1, List.nodup_singleton c, ?_⟩
      intro x hx hx2
      have hx3 : x = c := by simpa using hx2
      subst hx3
      exact hnk hx
    · intro p hp
      rcases List.mem_append.mp hp with hp | hp
      · exact h.2 p hp
      · have hp2 : p = (c, ll) := by simpa using hp
        subst hp2
        exact hll

theorem channelWF_append_fresh {ll0 : FDanzmannChannelListenerList}
    (h : channelWF ll0 ∨ (ll0.Listeners = [] ∧ ll0.AvailableHandleId = 0))
    (Entry : FDanzmannGameplayMessagesListenerData)
    (hid : Entry.HandleId = ll0.AvailableHandleId + 1) :
    channelWF { Listeners := ll0.Listeners ++ [Entry],
                AvailableHandleId := ll0.AvailableHandleId + 1 } := by
  refine ⟨by simp, ?_, ?_⟩
  · show ((ll0.Listeners ++ [Entry]).map (·.HandleId)).Nodup
    rw [List.map_append]
    rcases h with ⟨hne, hnd, hdom⟩ | ⟨hl, hc⟩
    · rw [List.nodup_append]
      refine ⟨hnd, by simp, ?_⟩
      intro x hx hx2
      have hx3 : x = Entry.HandleId := by simpa using hx2
      subst hx3
      obtain ⟨y, hy, hyid⟩ := List.mem_map.mp hx
      have hyd := hdom y hy
      omega
    · rw [hl]
      simp
  · intro x hx
    show x.HandleId ≤ ll0.AvailableHandleId + 1
    rcases List.mem_append.mp hx with hx | hx
    · rcases h with ⟨hne, hnd, hdom⟩ | ⟨hl, hc⟩
      · exact le_trans (hdom x hx) (Nat.le_succ _)
      · rw [hl] at hx; simp at hx
    · have hx2 : x = Entry := by simpa using hx
      subst hx2
      omega

theorem mapWF_registerListener_Internal {m : ListenerMap} (h : mapWF m)
    (c : FGameplayTag) (cb : Nat) (ty : Option UScriptStructDesc)
    (cr : EDanzmannGameplayMessagesMatchCriteria) :
    mapWF (registerListener_Internal m c cb ty cr).1 := by
  apply mapWF_mapFindOrAddSet h
  apply channelWF_append_fresh
  · cases hm : mapFind m c with
    | none => exact Or.inr ⟨rfl, rfl⟩
    | some ll0 => exact Or.inl (h.2 _ (mapFind_mem hm))
  · rfl

theorem unregisterListener_Internal_eq_none {m : ListenerMap} {c : FGameplayTag}
    (k : Nat) (hm : mapFind m c = none) : unregisterListener_Internal m c k = m := by
  unfold unregisterListener_Internal
  rw [hm]

theorem unregisterListener_Internal_eq_some {m : ListenerMap} {c : FGameplayTag}
    {ll : FDanzmannChannelListenerList} (k : Nat) (hm : mapFind m c = some ll) :
    unregisterListener_Internal m c k =
      match indexOfByPredicate (fun other => other.HandleId == k) ll.Listeners with
      | none => if ll.Listeners.length = 0 then mapRemove m c else m
      | some i =>
        if (removeAtSwap ll.Listeners i).length = 0 then mapRemove m c
        else mapSet m c { ll with Listeners := removeAtSwap ll.Listeners i } := by
  unfold unregisterListener_Internal
  rw [hm]

theorem mapWF_unregisterListener_Internal {m : ListenerMap} (h : mapWF m)
    (c : FGameplayTag) (k : Nat) : mapWF (unregisterListener_Internal m c k) := by
  cases hm : mapFind m c with
  | none =>
    rw [unregisterListener_Internal_eq_none k hm]
    exact h
  | some ll =>
    rw [unregisterListener_Internal_eq_some k hm]
    cases hidx : indexOfByPredicate (fun other => other.HandleId == k) ll.Listeners with
    | none =>
      show mapWF (if ll.Listeners.length = 0 then mapRemove m c else m)
      split_ifs with hlen
      · exact mapWF_mapRemove h c
      · exact h
    | some i =>
      obtain ⟨hlt, hp⟩ := indexOfByPredicate_eq_some hidx
      have hch : channelWF ll := h.2 _ (mapFind_mem hm)
      show mapWF (if (removeAtSwap ll.Listeners i).length = 0 then mapRemove m c
        else mapSet m c { ll with Listeners := removeAtSwap ll.Listeners i })
      split_ifs with hlen
      · exact mapWF_mapRemove h c
      · refine ⟨by rw [mapSet_keys]; exact h.1, ?_⟩
        intro p hp2
        rcases mem_mapSet hp2 with rfl | hp2
        · refine ⟨?_, ?_, ?_⟩
          · intro hnil
            have hnil2 : removeAtSwap ll.Listeners i = [] := hnil
            exact hlen (by rw [hnil2]; rfl)
          · exact removeAtSwap_map_nodup hlt hch.2.1
          · intro x hx
            exact hch.2.2 x (removeAtSwap_subset hlt x hx)
        · exact h.2 p hp2

theorem mapWF_unregisterListener {m : ListenerMap} (h : mapWF m)
    (hdl : FDanzmannGameplayMessagesListenerHandle) :
    mapWF (unregisterListener m hdl).1 := by
  unfold unregisterListener
  split_ifs
  · exact mapWF_unregisterListener_Internal h _ _
  · exact h

theorem mapWF_applyOp {m : ListenerMap} (h : mapWF m) :
    ∀ op : RouterOp, mapWF (applyOp m op)
  | .reg c cb ty cr => mapWF_registerListener_Internal h c cb ty cr
  | .unreg hdl => mapWF_unregisterListener h hdl

theorem mapWF_applyOps : ∀ (ops : List RouterOp) (m : ListenerMap), mapWF m →
    mapWF (applyOps m ops) := by
  intro ops
  induction ops with
  | nil => intro m h; exact h
  | cons op rest ih => intro m h; exact ih _ (mapWF_applyOp h op)

theorem mapWF_envOfOps (f : Nat → List RouterOp) (cb : Nat) {m : ListenerMap}
    (h : mapWF m) : mapWF (envOfOps f cb m) :=
  mapWF_applyOps (f cb) m h

theorem mapWF_broadcastLevel (env : Nat → ListenerMap → ListenerMap)
    (henv : ∀ cb m, mapWF m → mapWF (env cb m)) (Channel : FGameplayTag)
    (ty : UScriptStructDesc) (payload : Nat) (ini : Bool) (lvl : FGameplayTag) :
    ∀ (snap : List FDanzmannGameplayMessagesListenerData) (m : ListenerMap), mapWF m →
      mapWF (broadcastLevel env Channel ty payload ini lvl snap m).1 := by
  intro snap
  induction snap with
  | nil => intro m h; exact h
  | cons l rest ih =>
    intro m h
    simp only [broadcastLevel]
    split_ifs with h1 h2 h3
    · exact ih _ (mapWF_unregisterListener_Internal h _ _)
    · exact ih _ (henv _ _ h)
    · exact ih _ h
    · exact ih _ h

theorem mapWF_broadcastWalk (env : Nat → ListenerMap → ListenerMap)
    (henv : ∀ cb m, mapWF m → mapWF (env cb m)) (Channel : FGameplayTag)
    (ty : UScriptStructDesc) (payload : Nat) :
    ∀ (levels : List FGameplayTag) (ini : Bool) (m : ListenerMap), mapWF m →
      mapWF (broadcastWalk env Channel ty payload levels ini m).1 := by
  intro levels
  induction levels with
  | nil => intro ini m h; exact h
  | cons lvl rest ih =>
    intro ini m h
    cases hf : mapFind m lvl with
    | none =>
      simp only [broadcastWalk, hf]
      exact ih false m h
    | some ll =>
      simp only [broadcastWalk, hf]
      exact ih false _ (mapWF_broadcastLevel env henv Channel ty payload ini lvl
        ll.Listeners m h)

theorem mapWF_broadcastGameplayMessage_Internal (env : Nat → ListenerMap → ListenerMap)
    (henv : ∀ cb m, mapWF m → mapWF (env cb m)) (Channel : FGameplayTag)
    (ty : UScriptStructDesc) (payload : Nat) {m : ListenerMap} (h : mapWF m) :
    mapWF (broadcastGameplayMessage_Internal env Channel ty payload m).1 :=
  mapWF_broadcastWalk env henv Channel ty payload (tagChain Channel) true m h

/-! ### Handle-id counter lemmas -/

theorem registerListener_Internal_id (m : ListenerMap) (c : FGameplayTag) (cb : Nat)
    (ty : Option UScriptStructDesc) (cr : EDanzmannGameplayMessagesMatchCriteria) :
    (registerListener_Internal m c cb ty cr).2.Id = availableIdAt m c + 1 := rfl

theorem availableIdAt_register_self (m : ListenerMap) (c : FGameplayTag) (cb : Nat)
    (ty : Option UScriptStructDesc) (cr : EDanzmannGameplayMessagesMatchCriteria) :
    availableIdAt (registerListener_Internal m c cb ty cr).1 c = availableIdAt m c + 1 := by
  unfold availableIdAt registerListener_Internal
  rw [mapFind_mapFindOrAddSet_self]
  rfl

theorem availableIdAt_register_ne (m : ListenerMap) {c c2 : FGameplayTag} (cb : Nat)
    (ty : Option UScriptStructDesc) (cr : EDanzmannGameplayMessagesMatchCriteria)
    (h : c2 ≠ c) :
    availableIdAt (registerListener_Internal m c cb ty cr).1 c2 = availableIdAt m c2 := by
  unfold availableIdAt registerListener_Internal
  rw [mapFind_mapFindOrAddSet_ne _ _ h]

theorem availableIdAt_le_unregisterInternal (m : ListenerMap) (c : FGameplayTag)
    (k : Nat) (c2 : FGameplayTag)
    (h : (mapFind (unregisterListener_Internal m c k) c2).isSome = true) :
    availableIdAt m c2 ≤ availableIdAt (unregisterListener_Internal m c k) c2 := by
  cases hm : mapFind m c with
  | none => rw [unregisterListener_Internal_eq_none k hm]
  | some ll =>
    rw [unregisterListener_Internal_eq_some k hm] at h ⊢
    cases hidx : indexOfByPredicate (fun other => other.HandleId == k) ll.Listeners with
    | none =>
      rw [hidx] at h
      have h2 : (mapFind (if ll.Listeners.length = 0 then mapRemove m c else m)
          c2).isSome = true := h
      show availableIdAt m c2 ≤
        availableIdAt (if ll.Listeners.length = 0 then mapRemove m c else m) c2
      split_ifs at h2 ⊢ with hlen
      · by_cases hc : c2 = c
        · subst hc
          rw [mapFind_mapRemove_self] at h2
          simp at h2
        · unfold availableIdAt
          rw [mapFind_mapRemove_ne _ hc]
      · exact le_refl _
    | some i =>
      rw [hidx] at h
      have h2 : (mapFind (if (removeAtSwap ll.Listeners i).length = 0 then mapRemove m c
          else mapSet m c { ll with Listeners := removeAtSwap ll.Listeners i })
          c2).isSome = true := h
      show availableIdAt m c2 ≤
        availableIdAt (if (removeAtSwap ll.Listeners i).length = 0 then mapRemove m c
          else mapSet m c { ll with Listeners := removeAtSwap ll.Listeners i }) c2
      split_ifs at h2 ⊢ with hlen
      · by_cases hc : c2 = c
        · subst hc
          rw [mapFind_mapRemove_self] at h2
          simp at h2
        · unfold availableIdAt
          rw [mapFind_mapRemove_ne _ hc]
      · by_cases hc : c2 = c
        · subst hc
          unfold availableIdAt
          rw [mapFind_mapSet_self, hm]
          simp
        · unfold availableIdAt
          rw [mapFind_mapSet_ne _ _ hc]

theorem availableIdAt_le_applyOp (m : ListenerMap) (op : RouterOp) (c : FGameplayTag)
    (h : (mapFind (applyOp m op) c).isSome = true) :
    availableIdAt m c ≤ availableIdAt (applyOp m op) c := by
  cases op with
  | reg c2 cb ty cr =>
    by_cases hc : c2 = c
    · subst hc
      rw [show applyOp m (.reg c2 cb ty cr) = (registerListener_Internal m c2 cb ty cr).1
        from rfl, availableIdAt_register_self]
      omega
    · rw [show applyOp m (.reg c2 cb ty cr) = (registerListener_Internal m c2 cb ty cr).1
        from rfl, availableIdAt_register_ne m cb ty cr (Ne.symm hc)]
  | unreg hdl =>
    show availableIdAt m c ≤ availableIdAt (unregisterListener m hdl).1 c
    have h2 : (mapFind (unregisterListener m hdl).1 c).isSome = true := h
    unfold unregisterListener at h2 ⊢
    split_ifs at h2 ⊢ with hv
    · exact availableIdAt_le_unregisterInternal m _ _ c h2
    · exact le_refl _

/-- Channel `c` stays present in the registry after every single step of an operation
sequence (the successive states of `applyOps`). -/
def presentAll (c : FGameplayTag) : ListenerMap → List RouterOp → Bool
  | _, [] => true
  | m, op :: rest => (mapFind (applyOp m op) c).isSome && presentAll c (applyOp m op) rest

theorem availableIdAt_le_applyOps (c : FGameplayTag) :
    ∀ (ops : List RouterOp) (m : ListenerMap), presentAll c m ops = true →
      availableIdAt m c ≤ availableIdAt (applyOps m ops) c := by
  intro ops
  induction ops with
  | nil => intro m _; exact le_refl _
  | cons op rest ih =>
    intro m h
    simp only [presentAll, Bool.and_eq_true] at h
    exact le_trans (availableIdAt_le_applyOp m op c h.1) (ih _ h.2)

/-- `N` sequential `RegisterListener_Internal` calls on the same channel, returning the
issued handle ids in order; each spec is `(Callback, struct type, match criteria)`. -/
def registerMany (m : ListenerMap) (c : FGameplayTag) :
    List (Nat × Option UScriptStructDesc × EDanzmannGameplayMessagesMatchCriteria) →
    ListenerMap × List Nat
  | [] => (m, [])
  | s :: rest =>
    let r := registerListener_Internal m c s.1 s.2.1 s.2.2
    let next := registerMany r.1 c rest
    (next.1, r.2.Id :: next.2)

theorem registerMany_ids (c : FGameplayTag) :
    ∀ (specs : List (Nat × Option UScriptStructDesc ×
        EDanzmannGameplayMessagesMatchCriteria)) (m : ListenerMap),
      (registerMany m c specs).2 =
        (List.range specs.length).map (fun i => availableIdAt m c + 1 + i) := by
  intro specs
  induction specs with
  | nil => intro m; rfl
  | cons s rest ih =>
    intro m
    show (registerListener_Internal m c s.1 s.2.1 s.2.2).2.Id ::
        (registerMany (registerListener_Internal m c s.1 s.2.1 s.2.2).1 c rest).2 = _
    rw [ih, registerListener_Internal_id, availableIdAt_register_self,
      List.length_cons, List.range_succ_eq_map, List.map_cons, List.map_map]
    refine List.cons_eq_cons.mpr ⟨by omega, ?_⟩
    apply List.map_congr_left
    intro i _
    simp only [Function.comp_apply]
    omega

/-! ### At-most-once delivery counting -/

/-- Whether an event is a callback invocation of the listener entry stored at level
`lvl` with handle id `k`. -/
def isDeliveredTo (lvl : FGameplayTag) (k : Nat) : BroadcastEvent → Bool
  | .delivered _ _ _ l entry => decide (l = lvl) && (entry.HandleId == k)
  | _ => false

theorem isDeliveredTo_eventLevel {lvl : FGameplayTag} {k : Nat} {e : BroadcastEvent}
    (h : isDeliveredTo lvl k e = true) : eventLevel e = lvl := by
  cases e with
  | delivered a b c d entry =>
    simp only [isDeliveredTo, Bool.and_eq_true, decide_eq_true_eq] at h
    exact h.1
  | typeMismatch a b c d => simp [isDeliveredTo] at h
  | staleRemoved a b c => simp [isDeliveredTo] at h

theorem level_filter_zero (Channel : FGameplayTag) (ty : UScriptStructDesc) (payload : Nat)
    (ini : Bool) (lvl0 lvl : FGameplayTag) (k : Nat) :
    ∀ (snap : List FDanzmannGameplayMessagesListenerData),
      (∀ x ∈ snap, x.HandleId ≠ k) →
      (snap.filterMap (levelEvent Channel ty payload ini lvl0)).filter
        (isDeliveredTo lvl k) = [] := by
  intro snap
  induction snap with
  | nil => intro _; rfl
  | cons l rest ih =>
    intro h
    rw [List.filterMap_cons]
    cases he : levelEvent Channel ty payload ini lvl0 l with
    | none => exact ih fun x hx => h x (List.mem_cons_of_mem _ hx)
    | some e =>
      rw [List.filter_cons]
      have hfalse : isDeliveredTo lvl k e = false := by
        cases e with
        | delivered a b c d entry =>
          obtain ⟨_, _, _, _, hentry, _, _, _⟩ := levelEvent_delivered_inv he
          have hk : l.HandleId ≠ k := h l (List.mem_cons_self _ _)
          simp [isDeliveredTo, hentry, hk]
        | typeMismatch a b c d => rfl
        | staleRemoved a b c => rfl
      simp only [hfalse, Bool.false_eq_true, if_false]
      exact ih fun x hx => h x (List.mem_cons_of_mem _ hx)

theorem level_filter_le_one (Channel : FGameplayTag) (ty : UScriptStructDesc)
    (payload : Nat) (ini : Bool) (lvl0 lvl : FGameplayTag) (k : Nat) :
    ∀ (snap : List FDanzmannGameplayMessagesListenerData),
      (snap.map (·.HandleId)).Nodup →
      ((snap.filterMap (levelEvent Channel ty payload ini lvl0)).filter
        (isDeliveredTo lvl k)).length ≤ 1 := by
  intro snap
  induction snap with
  | nil => intro _; simp
  | cons l rest ih =>
    intro hnd
    rw [List.map_cons, List.nodup_cons] at hnd
    rw [List.filterMap_cons]
    cases he : levelEvent Channel ty payload ini lvl0 l with
    | none => exact ih hnd.2
    | some e =>
      rw [List.filter_cons]
      by_cases hd : isDeliveredTo lvl k e = true
      · rw [if_pos hd]
        have hkl : l.HandleId = k := by
          cases e with
          | delivered a b c d entry =>
            obtain ⟨_, _, _, _, hentry, _, _, _⟩ := levelEvent_delivered_inv he
            rw [hentry] at hd
            simp only [isDeliveredTo, Bool.and_eq_true, beq_iff_eq] at hd
            exact hd.2
          | typeMismatch a b c d => simp [isDeliveredTo] at hd
          | staleRemoved a b c => simp [isDeliveredTo] at hd
        have hzero : (rest.filterMap (levelEvent Channel ty payload ini lvl0)).filter
            (isDeliveredTo lvl k) = [] := by
          apply level_filter_zero
          intro x hx hxk
          apply hnd.1
          have hmm : x.HandleId ∈ rest.map (·.HandleId) := List.mem_map_of_mem _ hx
          rwa [hxk, ← hkl] at hmm
        rw [hzero]
        simp
      · rw [if_neg hd]
        exact ih hnd.2

theorem broadcastWalk_filter_count (env : Nat → ListenerMap → ListenerMap)
    (henv : ∀ cb m, mapWF m → mapWF (env cb m)) (Channel : FGameplayTag)
    (ty : UScriptStructDesc) (payload : Nat) (lvl : FGameplayTag) (k : Nat) :
    ∀ (levels : List FGameplayTag) (ini : Bool) (m : ListenerMap), mapWF m →
      levels.Nodup →
      (((broadcastWalk env Channel ty payload levels ini m).2).filter
        (isDeliveredTo lvl k)).length ≤ 1 := by
  intro levels
  induction levels with
  | nil => intro ini m _ _; simp [broadcastWalk]
  | cons lvl1 rest ih =>
    intro ini m hwf hnd
    rw [List.nodup_cons] at hnd
    cases hf : mapFind m lvl1 with
    | none =>
      simp only [broadcastWalk, hf, List.nil_append]
      exact ih false m hwf hnd.2
    | some ll =>
      simp only [broadcastWalk, hf]
      rw [List.filter_append, List.length_append]
      have hwf1 : mapWF (broadcastLevel env Channel ty payload ini lvl1 ll.Listeners m).1 :=
        mapWF_broadcastLevel env henv Channel ty payload ini lvl1 ll.Listeners m hwf
      by_cases hl : lvl1 = lvl
      · subst hl
        have ha : ((broadcastLevel env Channel ty payload ini lvl1 ll.Listeners m).2.filter
            (isDeliveredTo lvl1 k)).length ≤ 1 := by
          rw [broadcastLevel_snd]
          exact level_filter_le_one Channel ty payload ini lvl1 lvl1 k ll.Listeners
            (hwf.2 _ (mapFind_mem hf)).2.1
        have hb : ((broadcastWalk env Channel ty payload rest false
            (broadcastLevel env Channel ty payload ini lvl1 ll.Listeners m).1).2.filter
            (isDeliveredTo lvl1 k)) = [] := by
          rw [List.filter_eq_nil_iff]
          intro e he hde
          have hlv := isDeliveredTo_eventLevel hde
          have hmem := broadcastWalk_events_mem_level env Channel ty payload rest false _ e he
          rw [hlv] at hmem
          exact hnd.1 hmem
        rw [hb]
        simpa using ha
      · have ha : ((broadcastLevel env Channel ty payload ini lvl1 ll.Listeners m).2.filter
            (isDeliveredTo lvl k)) = [] := by
          rw [broadcastLevel_snd, List.filter_eq_nil_iff]
          intro e he hde
          obtain ⟨l2, _, hl2⟩ := List.mem_filterMap.mp he
          have he1 := levelEvent_some_eventLevel hl2
          rw [isDeliveredTo_eventLevel hde] at he1
          exact hl he1.symm
        rw [ha]
        simpa using ih false _ hwf1 hnd.2

/-! ### Claim theorems -/

/-- Claim C1: for every broadcast on `Channel`, a listener entry stored at a visited
level `lvl` is delivered to only when `lvl` is an ancestor-or-self of `Channel` (so a
listener registered on a strict descendant of `Channel` is never invoked), and only
when `lvl` is `Channel` itself (the initial level) or the entry's match criteria is
`PartialMatch`; in particular an `ExactMatch` listener registered on a strict ancestor
never fires for a broadcast on a descendant channel. -/
theorem C1_hierarchy_eligibility (env : Nat → ListenerMap → ListenerMap)
    (Channel C0 : FGameplayTag) (ty ty0 : UScriptStructDesc) (payload pl0 : Nat)
    (m : ListenerMap) (lvl : FGameplayTag)
    (entry : FDanzmannGameplayMessagesListenerData)
    (h : BroadcastEvent.delivered C0 ty0 pl0 lvl entry ∈
      (broadcastGameplayMessage_Internal env Channel ty payload m).2) :
    lvl <+: Channel ∧ (lvl = Channel ∨ entry.MatchCriteria = .PartialMatch) := by
  have hmem : eventLevel (BroadcastEvent.delivered C0 ty0 pl0 lvl entry)
      ∈ tagChain Channel :=
    broadcastWalk_events_mem_level env Channel ty payload (tagChain Channel) true m _ h
  refine ⟨mem_tagChain_isPrefix hmem, ?_⟩
  rcases broadcastWalk_delivered_guard env Channel ty payload (tagChain Channel) true m
      C0 ty0 pl0 lvl entry h with hg | hg
  · exact Or.inr hg
  · by_cases hc : Channel = []
    · subst hc
      simp [tagChain, tagChainFuel] at hmem
    · left
      have hh := hg.2
      rw [tagChain_cons Channel hc] at hh
      simp only [List.head?_cons, Option.some_inj] at hh
      exact hh.symm

theorem C1_hierarchy_eligibility_witness :
    ([0] : FGameplayTag) <+: [0, 1] ∧
      (([0] : FGameplayTag) = [0, 1] ∨
        ({ HandleId := 1, Callback := 0, GameplayMessageStructType := none,
           structTypeAlive := true, bHasValidType := false,
           MatchCriteria := .PartialMatch } :
          FDanzmannGameplayMessagesListenerData).MatchCriteria = .PartialMatch) :=
  C1_hierarchy_eligibility (fun _ s => s) [0, 1] [0, 1] [] [] 0 0
    [([0], { Listeners := [{ HandleId := 1,
                             Callback := 0,
                             GameplayMessageStructType := none,
                             structTypeAlive := true,
                             bHasValidType := false,
                             MatchCriteria := .PartialMatch }],
             AvailableHandleId := 1 })]
    [0]
    { HandleId := 1, Callback := 0, GameplayMessageStructType := none,
      structTypeAlive := true, bHasValidType := false, MatchCriteria := .PartialMatch }
    (by decide)

/-- Claim C2: for every eligible entry during a broadcast of payload type `ty`: if the
entry's expected type is wildcard (`bHasValidType` false) or `ty` is the same as or a
child of the expected type, the callback is invoked with the broadcast channel, type
and payload (first and third conjuncts); otherwise the callback is not invoked and a
type-mismatch error carrying the channel, broadcast type, listener's ancestor level
and expected type is recorded (second and third conjuncts), while the loop continues
over the remaining snapshot entries and levels (the third conjunct holds for every
entry of the snapshot irrespective of the others). -/
theorem C2_type_compatibility :
    (∀ (env : Nat → ListenerMap → ListenerMap) (Channel C0 : FGameplayTag)
        (ty ty0 : UScriptStructDesc) (payload pl0 : Nat) (m : ListenerMap)
        (lvl : FGameplayTag) (entry : FDanzmannGameplayMessagesListenerData),
      BroadcastEvent.delivered C0 ty0 pl0 lvl entry ∈
          (broadcastGameplayMessage_Internal env Channel ty payload m).2 →
        C0 = Channel ∧ ty0 = ty ∧ pl0 = payload ∧
          (entry.bHasValidType = false ∨
            isChildOf ty (entry.GameplayMessageStructType.getD []) = true)) ∧
    (∀ (env : Nat → ListenerMap → ListenerMap) (Channel C0 : FGameplayTag)
        (ty ty0 : UScriptStructDesc) (payload : Nat) (m : ListenerMap)
        (lvl : FGameplayTag) (exp : Option UScriptStructDesc),
      BroadcastEvent.typeMismatch C0 ty0 lvl exp ∈
          (broadcastGameplayMessage_Internal env Channel ty payload m).2 →
        C0 = Channel ∧ ty0 = ty ∧ exp.isSome = true ∧
          isChildOf ty (exp.getD []) = false) ∧
    (∀ (env : Nat → ListenerMap → ListenerMap) (Channel : FGameplayTag)
        (ty : UScriptStructDesc) (payload : Nat) (ini : Bool) (lvl : FGameplayTag)
        (snap : List FDanzmannGameplayMessagesListenerData) (m : ListenerMap)
        (entry : FDanzmannGameplayMessagesListenerData),
      entry ∈ snap →
      (ini = true ∨ entry.MatchCriteria = .PartialMatch) →
      ¬ (entry.bHasValidType = true ∧ ¬ weakIsValid entry = true) →
      (if ¬ entry.bHasValidType = true ∨
          isChildOf ty (entry.GameplayMessageStructType.getD []) = true
       then BroadcastEvent.delivered Channel ty payload lvl entry ∈
          (broadcastLevel env Channel ty payload ini lvl snap m).2
       else BroadcastEvent.typeMismatch Channel ty lvl entry.GameplayMessageStructType ∈
          (broadcastLevel env Channel ty payload ini lvl snap m).2)) := by
  refine ⟨?_, ?_, ?_⟩
  · intro env Channel C0 ty ty0 payload pl0 m lvl entry h
    obtain ⟨lvl2, l, ini2, _, hl⟩ :=
      broadcastWalk_sound env Channel ty payload (tagChain Channel) true m _ h
    obtain ⟨hc, hty, hpl, _, hentry, _, _, hok⟩ := levelEvent_delivered_inv hl
    refine ⟨hc, hty, hpl, ?_⟩
    rcases hok with hok | hok
    · subst hentry
      exact Or.inl (by simpa using hok)
    · subst hentry
      exact Or.inr hok
  · intro env Channel C0 ty ty0 payload m lvl exp h
    obtain ⟨lvl2, l, ini2, _, hl⟩ :=
      broadcastWalk_sound env Channel ty payload (tagChain Channel) true m _ h
    obtain ⟨hc, hty, _, hexp, _, _, hweak, hchild⟩ := levelEvent_mismatch_inv hl
    have hsome : l.GameplayMessageStructType.isSome = true := by
      unfold weakIsValid at hweak
      exact (Bool.and_eq_true _ _).mp hweak |>.1
    subst hexp
    exact ⟨hc, hty, hsome, hchild⟩
  · intro env Channel ty payload ini lvl snap m entry hmem hg hstale
    split_ifs with hty
    · rw [broadcastLevel_snd]
      refine List.mem_filterMap.mpr ⟨entry, hmem, ?_⟩
      unfold levelEvent
      rw [if_pos hg, if_neg hstale, if_pos hty]
    · rw [broadcastLevel_snd]
      refine List.mem_filterMap.mpr ⟨entry, hmem, ?_⟩
      unfold levelEvent
      rw [if_pos hg, if_neg hstale, if_neg hty]

theorem C2_type_compatibility_witness :
    BroadcastEvent.delivered [0] [5, 6] 0 [0]
        { HandleId := 1, Callback := 0, GameplayMessageStructType := some [5],
          structTypeAlive := true, bHasValidType := true,
          MatchCriteria := .ExactMatch } ∈
      (broadcastLevel (fun _ s => s) [0] [5, 6] 0 true [0]
        [{ HandleId := 1, Callback := 0, GameplayMessageStructType := some [5],
           structTypeAlive := true, bHasValidType := true,
           MatchCriteria := .ExactMatch }] []).2 := by
  have h := C2_type_compatibility.2.2 (fun _ s => s) [0] [5, 6] 0 true [0]
    [{ HandleId := 1, Callback := 0, GameplayMessageStructType := some [5],
       structTypeAlive := true, bHasValidType := true, MatchCriteria := .ExactMatch }]
    []
    { HandleId := 1, Callback := 0, GameplayMessageStructType := some [5],
      structTypeAlive := true, bHasValidType := true, MatchCriteria := .ExactMatch }
    (by decide) (by decide) (by decide)
  rw [if_pos (by decide)] at h
  exact h

/-- Claim C3 counterexample: the snapshot is taken per level, not per broadcast.  A
callback running at the initial level `[0, 1]` registers a new `PartialMatch` listener
on the not-yet-visited ancestor `[0]`; when the walk reaches `[0]` it looks the map up
afresh, so the listener registered during the broadcast does receive the in-flight
broadcast, refuting the claim that registrations during a broadcast never change which
listeners of the current broadcast are visited. -/
theorem C3_counterexample :
    BroadcastEvent.delivered [0, 1] [] 0 [0]
        { HandleId := 1, Callback := 1, GameplayMessageStructType := none,
          structTypeAlive := true, bHasValidType := false,
          MatchCriteria := .PartialMatch } ∈
      (broadcastGameplayMessage_Internal
        (fun cb s =>
          if cb = 0 then (registerListener_Internal s [0] 1 none .PartialMatch).1 else s)
        [0, 1] [] 0
        [([0, 1], { Listeners := [{ HandleId := 1, Callback := 0 }],
                    AvailableHandleId := 1 })]).2 := by
  decide

/-- Claim C3 (amended): for every visited channel level, the listener sequence of that
level is copied before any callback of that level is invoked, so registrations and
unregistrations performed by callbacks never change which listeners of *that level*
are visited: the level's event trace is a function of the snapshot alone (identical
for any callback environment and any registry state), delivering exactly once to each
eligible snapshot entry — no skips, no double delivery, and no delivery at that level
to a listener that is not in the snapshot.  (A listener registered during the
broadcast on a *not-yet-visited ancestor* level can still receive the broadcast, as
the counterexample shows, so the guarantee is per level, not per broadcast.) -/
theorem C3_amended_snapshot_isolation (env env2 : Nat → ListenerMap → ListenerMap)
    (Channel : FGameplayTag) (ty : UScriptStructDesc) (payload : Nat) (ini : Bool)
    (lvl : FGameplayTag) (snap : List FDanzmannGameplayMessagesListenerData)
    (m m2 : ListenerMap) :
    (broadcastLevel env Channel ty payload ini lvl snap m).2 =
      snap.filterMap (levelEvent Channel ty payload ini lvl) ∧
    (broadcastLevel env Channel ty payload ini lvl snap m).2 =
      (broadcastLevel env2 Channel ty payload ini lvl snap m2).2 := by
  refine ⟨broadcastLevel_snd env Channel ty payload ini lvl snap m, ?_⟩
  rw [broadcastLevel_snd, broadcastLevel_snd]

/-- Claim C4 counterexample: register on channel `[0]` (handle id 1), unregister that
handle — the channel's list becomes empty, so the channel entry, including its
`AvailableHandleId` counter, is removed from the map — then register again: the new
entry is issued handle id 1 again, refuting 'IDs are never reused even after removals,
including removals that empty the channel's list'. -/
theorem C4_counterexample :
    (registerListener_Internal [] [0] 0 none .ExactMatch).2.Id = 1 ∧
    (registerListener_Internal
      ((unregisterListener (registerListener_Internal [] [0] 0 none .ExactMatch).1
          (registerListener_Internal [] [0] 0 none .ExactMatch).2).1)
      [0] 1 none .ExactMatch).2.Id = 1 := by
  decide

/-- Claim C4 (amended): the handle ids returned by `N` sequential registrations on one
channel are strictly increasing (hence pairwise distinct); and after an entry with
handle id `k` is removed, as long as the channel key remains present in the map across
every subsequent operation (so its counter survives), a newly registered entry on that
channel is issued an id strictly greater than `k` — ids are only reused when a removal
empties the channel's list, which deletes the channel together with its counter and
lets ids restart from 1. -/
theorem C4_amended_handle_ids :
    (∀ (m : ListenerMap) (c : FGameplayTag)
        (specs : List (Nat × Option UScriptStructDesc ×
          EDanzmannGameplayMessagesMatchCriteria)),
      ((registerMany m c specs).2).Pairwise (· < ·)) ∧
    (∀ (m : ListenerMap) (c : FGameplayTag) (k : Nat) (ops : List RouterOp) (cb : Nat)
        (ty : Option UScriptStructDesc) (cr : EDanzmannGameplayMessagesMatchCriteria),
      k ≤ availableIdAt m c → presentAll c m ops = true →
      k < (registerListener_Internal (applyOps m ops) c cb ty cr).2.Id) := by
  constructor
  · intro m c specs
    rw [registerMany_ids]
    exact (List.pairwise_lt_range specs.length).map _ (fun a b hab => by omega)
  · intro m c k ops cb ty cr hk hp
    rw [registerListener_Internal_id]
    have hmono := availableIdAt_le_applyOps c ops m hp
    omega

theorem C4_amended_handle_ids_witness :
    1 < (registerListener_Internal
        (applyOps [([0], { Listeners := [{ HandleId := 2 }], AvailableHandleId := 2 })] [])
        [0] 0 none .ExactMatch).2.Id :=
  C4_amended_handle_ids.2
    [([0], { Listeners := [{ HandleId := 2 }], AvailableHandleId := 2 })]
    [0] 1 [] 0 none .ExactMatch (by decide) (by decide)

/-- Claim C5: the code violates the claim.  The stale-listener purge in
`BroadcastGameplayMessage_Internal` calls `UnregisterListener_Internal(Channel,
Listener.HandleId)` with the *broadcast* channel instead of the level tag the listener
is stored at.  At the failing input below — a stale `PartialMatch` listener with
handle id 1 on ancestor `[0]` and a healthy listener that happens to share handle id 1
on the broadcast channel `[0, 1]` — the purge removes the healthy `[0, 1]` entry
(pruning that channel) while the stale `[0]` entry stays in the registry; its delivery
is skipped with the stale warning, as the recorded event shows. -/
theorem C5_stale_purge_wrong_channel :
    (broadcastGameplayMessage_Internal (fun _ s => s) [0, 1] [5] 0
        [([0], { Listeners := [{ HandleId := 1,
                                 Callback := 0,
                                 GameplayMessageStructType := some [5],
                                 structTypeAlive := false,
                                 bHasValidType := true,
                                 MatchCriteria := .PartialMatch }],
                 AvailableHandleId := 1 }),
         ([0, 1], { Listeners := [{ HandleId := 1, Callback := 1 }],
                    AvailableHandleId := 1 })]).1
      = [([0], { Listeners := [{ HandleId := 1,
                                 Callback := 0,
                                 GameplayMessageStructType := some [5],
                                 structTypeAlive := false,
                                 bHasValidType := true,
                                 MatchCriteria := .PartialMatch }],
                 AvailableHandleId := 1 })] ∧
    BroadcastEvent.staleRemoved [0, 1] [0]
        { HandleId := 1, Callback := 0, GameplayMessageStructType := some [5],
          structTypeAlive := false, bHasValidType := true,
          MatchCriteria := .PartialMatch } ∈
      (broadcastGameplayMessage_Internal (fun _ s => s) [0, 1] [5] 0
        [([0], { Listeners := [{ HandleId := 1,
                                 Callback := 0,
                                 GameplayMessageStructType := some [5],
                                 structTypeAlive := false,
                                 bHasValidType := true,
                                 MatchCriteria := .PartialMatch }],
                 AvailableHandleId := 1 }),
         ([0, 1], { Listeners := [{ HandleId := 1, Callback := 1 }],
                    AvailableHandleId := 1 })]).2 := by
  decide

/-- Claim C6: the registry invariant is preserved by every register and unregister
operation and by every broadcast whose callbacks themselves perform register and
unregister calls: keys stay unique, every stored channel list is non-empty (a channel
key is present iff its list is non-empty — unregistering the last entry removes the
key, registering leaves the touched list non-empty), ids in a list stay distinct and
bounded by the channel counter.  The third conjunct states the presence half
explicitly: any key found in the map after an operation holds a non-empty list. -/
theorem C6_registry_invariant (m : ListenerMap) (h : mapWF m) :
    (∀ op : RouterOp, mapWF (applyOp m op)) ∧
    (∀ (f : Nat → List RouterOp) (Channel : FGameplayTag) (ty : UScriptStructDesc)
        (payload : Nat),
      mapWF (broadcastGameplayMessage_Internal (envOfOps f) Channel ty payload m).1) ∧
    (∀ (op : RouterOp) (c : FGameplayTag) (ll : FDanzmannChannelListenerList),
      mapFind (applyOp m op) c = some ll → ll.Listeners ≠ []) := by
  refine ⟨mapWF_applyOp h, ?_, ?_⟩
  · intro f Channel ty payload
    exact mapWF_broadcastGameplayMessage_Internal (envOfOps f)
      (fun cb _ h2 => mapWF_envOfOps f cb h2) Channel ty payload h
  · intro op c ll hfind
    exact ((mapWF_applyOp h op).2 _ (mapFind_mem hfind)).1

theorem C6_registry_invariant_witness :
    mapWF (applyOp [] (.reg [0] 0 none .ExactMatch)) :=
  (C6_registry_invariant [] (by decide)).1 (.reg [0] 0 none .ExactMatch)

/-- Claim C7: unregister is total and never surfaces an error.  With an invalid
(zero-id) handle it only reports a warning (`true` flag) and leaves the registry
unchanged; with a valid handle matching no live entry it is a silent (`false` flag)
no-op leaving the registry unchanged; and unregistering the same handle twice is safe:
the second call changes nothing. -/
theorem C7_unregister_total (m : ListenerMap)
    (hdl : FDanzmannGameplayMessagesListenerHandle) :
    (hdl.IsValid = false → unregisterListener m hdl = (m, true)) ∧
    (mapWF m → hdl.IsValid = true →
      (∀ ll, mapFind m hdl.Channel = some ll → ∀ l ∈ ll.Listeners, l.HandleId ≠ hdl.Id) →
      unregisterListener m hdl = (m, false)) ∧
    (mapWF m →
      (unregisterListener (unregisterListener m hdl).1 hdl).1 =
        (unregisterListener m hdl).1) := by
  refine ⟨?_, ?_, ?_⟩
  · intro hv
    unfold unregisterListener
    rw [if_neg (show ¬ hdl.IsValid = true by simp [hv])]
  · intro hwf hv hno
    have hint : unregisterListener_Internal m hdl.Channel hdl.Id = m := by
      cases hm : mapFind m hdl.Channel with
      | none => exact unregisterListener_Internal_eq_none _ hm
      | some ll =>
        rw [unregisterListener_Internal_eq_some _ hm,
          indexOfByPredicate_eq_none
            (fun a ha => beq_eq_false_iff_ne.mpr (hno ll hm a ha))]
        show (if ll.Listeners.length = 0 then mapRemove m hdl.Channel else m) = m
        rw [if_neg (fun hlen =>
          (hwf.2 _ (mapFind_mem hm)).1 (List.length_eq_zero.mp hlen))]
    unfold unregisterListener
    rw [if_pos hv, hint]
  · intro hwf
    unfold unregisterListener
    split_ifs with hv
    · show unregisterListener_Internal
        (unregisterListener_Internal m hdl.Channel hdl.Id) hdl.Channel hdl.Id =
        unregisterListener_Internal m hdl.Channel hdl.Id
      cases hm : mapFind m hdl.Channel with
      | none =>
        rw [unregisterListener_Internal_eq_none _ hm,
          unregisterListener_Internal_eq_none _ hm]
      | some ll =>
        have hch : channelWF ll := hwf.2 _ (mapFind_mem hm)
        cases hidx : indexOfByPredicate (fun other => other.HandleId == hdl.Id)
            ll.Listeners with
        | none =>
          have hne0 : ¬ ll.Listeners.length = 0 := fun hlen =>
            hch.1 (List.length_eq_zero.mp hlen)
          have hs1 : unregisterListener_Internal m hdl.Channel hdl.Id = m := by
            rw [unregisterListener_Internal_eq_some _ hm, hidx]
            show (if ll.Listeners.length = 0 then mapRemove m hdl.Channel else m) = m
            rw [if_neg hne0]
          rw [hs1]
          exact hs1
        | some i =>
          obtain ⟨hlt, hpi⟩ := indexOfByPredicate_eq_some hidx
          have hgi : (ll.Listeners.get ⟨i, hlt⟩).HandleId = hdl.Id := by simpa using hpi
          have hknot : ∀ x ∈ removeAtSwap ll.Listeners i, x.HandleId ≠ hdl.Id := by
            intro x hx hxk
            apply removeAtSwap_not_mem_map hlt hch.2.1
            have hmm : x.HandleId ∈ (removeAtSwap ll.Listeners i).map (·.HandleId) :=
              List.mem_map_of_mem _ hx
            rwa [hxk, ← hgi] at hmm
          have hs1 : unregisterListener_Internal m hdl.Channel hdl.Id =
              (if (removeAtSwap ll.Listeners i).length = 0 then mapRemove m hdl.Channel
               else mapSet m hdl.Channel
                 { ll with Listeners := removeAtSwap ll.Listeners i }) := by
            rw [unregisterListener_Internal_eq_some _ hm, hidx]
          rw [hs1]
          split_ifs with hlen
          · exact unregisterListener_Internal_eq_none _ (mapFind_mapRemove_self _ _)
          · have hfind : mapFind
                (mapSet m hdl.Channel { ll with Listeners := removeAtSwap ll.Listeners i })
                hdl.Channel =
                some { ll with Listeners := removeAtSwap ll.Listeners i } := by
              rw [mapFind_mapSet_self, hm]
              rfl
            rw [unregisterListener_Internal_eq_some _ hfind,
              indexOfByPredicate_eq_none
                (fun a ha => beq_eq_false_iff_ne.mpr (hknot a ha))]
            show (if (removeAtSwap ll.Listeners i).length = 0
                then mapRemove (mapSet m hdl.Channel
                  { ll with Listeners := removeAtSwap ll.Listeners i }) hdl.Channel
                else mapSet m hdl.Channel
                  { ll with Listeners := removeAtSwap ll.Listeners i }) =
              mapSet m hdl.Channel { ll with Listeners := removeAtSwap ll.Listeners i }
            rw [if_neg hlen]
    · rfl

theorem C7_unregister_total_witness :
    (unregisterListener (unregisterListener
        [([0], { Listeners := [{ HandleId := 1 }], AvailableHandleId := 1 })]
        ⟨[0], 1⟩).1 ⟨[0], 1⟩).1 =
      (unregisterListener
        [([0], { Listeners := [{ HandleId := 1 }], AvailableHandleId := 1 })]
        ⟨[0], 1⟩).1 :=
  (C7_unregister_total
    [([0], { Listeners := [{ HandleId := 1 }], AvailableHandleId := 1 })]
    ⟨[0], 1⟩).2.2 (by decide)

/-- Claim C8: deliveries happen level by level in the order of `tagChain Channel` —
the initial channel's block first, then each strict ancestor nearest-first, root last
(the event trace flattens per-level blocks whose levels are exactly `tagChain Channel`
in order); each ancestor key is visited exactly once (`tagChain Channel` has no
duplicates); and a broadcast that finds no listeners anywhere along the chain
completes silently, leaving the registry untouched and producing no events. -/
theorem C8_delivery_order (env : Nat → ListenerMap → ListenerMap)
    (Channel : FGameplayTag) (ty : UScriptStructDesc) (payload : Nat)
    (m : ListenerMap) :
    (∃ pairs : List (FGameplayTag × List BroadcastEvent),
      pairs.map Prod.fst = tagChain Channel ∧
      (broadcastGameplayMessage_Internal env Channel ty payload m).2 =
        (pairs.map Prod.snd).flatten ∧
      ∀ p ∈ pairs, ∀ e ∈ p.2, eventLevel e = p.1) ∧
    (tagChain Channel).Nodup ∧
    ((∀ t ∈ tagChain Channel, mapFind m t = none) →
      broadcastGameplayMessage_Internal env Channel ty payload m = (m, [])) :=
  ⟨broadcastWalk_decomp env Channel ty payload (tagChain Channel) true m,
   tagChain_nodup Channel,
   fun h => broadcastWalk_silent env Channel ty payload (tagChain Channel) true m h⟩

theorem C8_delivery_order_witness :
    broadcastGameplayMessage_Internal (fun _ s => s) [0] [] 0 [] = ([], []) :=
  (C8_delivery_order (fun _ s => s) [0] [] 0 []).2.2 (by decide)

/-- Claim C9: every registration returns a valid handle: the returned id is the
per-channel counter pre-incremented, hence at least 1, so `IsValid()` holds
immediately after registration. -/
theorem C9_register_returns_valid_handle (m : ListenerMap) (Channel : FGameplayTag)
    (cb : Nat) (ty : Option UScriptStructDesc)
    (cr : EDanzmannGameplayMessagesMatchCriteria) :
    1 ≤ (registerListener_Internal m Channel cb ty cr).2.Id ∧
    (registerListener_Internal m Channel cb ty cr).2.IsValid = true := by
  constructor
  · rw [registerListener_Internal_id]
    omega
  · show ((registerListener_Internal m Channel cb ty cr).2.Id != 0) = true
    rw [registerListener_Internal_id]
    simp

/-- Claim C10: within a single broadcast (with callbacks that may re-enter
register/unregister), a listener entry — identified by the level it is stored at and
its per-channel handle id — is invoked at most once: the walk visits pairwise-distinct
levels and each level iterates its snapshot once, whose ids are distinct in a
well-formed registry. -/
theorem C10_at_most_once (f : Nat → List RouterOp) (Channel : FGameplayTag)
    (ty : UScriptStructDesc) (payload : Nat) (m : ListenerMap) (lvl : FGameplayTag)
    (k : Nat) (h : mapWF m) :
    (tagChain Channel).Nodup ∧
    (((broadcastGameplayMessage_Internal (envOfOps f) Channel ty payload m).2).filter
      (isDeliveredTo lvl k)).length ≤ 1 :=
  ⟨tagChain_nodup Channel,
   broadcastWalk_filter_count (envOfOps f) (fun cb _ h2 => mapWF_envOfOps f cb h2)
     Channel ty payload lvl k (tagChain Channel) true m h (tagChain_nodup Channel)⟩

theorem C10_at_most_once_witness :
    (tagChain [0]).Nodup ∧
    (((broadcastGameplayMessage_Internal (envOfOps fun _ => []) [0] [] 0
        [([0], { Listeners := [{ HandleId := 1 }], AvailableHandleId := 1 })]).2).filter
      (isDeliveredTo [0] 1)).length ≤ 1 :=
  C10_at_most_once (fun _ => []) [0] [] 0
    [([0], { Listeners := [{ HandleId := 1 }], AvailableHandleId := 1 })] [0] 1
    (by decide)
